import Mathlib

set_option linter.unusedVariables false

/-!
Shallow embedding of the `solana-payment-program` ledger (signup / onramp /
transfer over borsh-encoded PDA accounts) and of the `storage-program`
record codec, together with proofs of the specified properties.
-/

/-- A byte, as stored in account data and derivation seeds (`u8`). -/
abbrev Byte := Fin 256

/-- Raw byte strings (`&[u8]` / `Vec<u8>`). -/
abbrev Bytes := List Byte

/-- Truncate a natural number to its low byte. -/
def byteOf (n : Nat) : Byte := ⟨n % 256, Nat.mod_lt _ (by omega)⟩

/-- A Solana public key: exactly 32 raw bytes (`Pubkey` in the source). -/
structure Pubkey where
  bytes : Bytes
  len32 : bytes.length = 32

theorem Pubkey.eq_of_bytes (a b : Pubkey) (h : a.bytes = b.bytes) : a = b := by
  cases a; cases b; cases h; rfl

instance : DecidableEq Pubkey := fun a b =>
  if h : a.bytes = b.bytes then isTrue (Pubkey.eq_of_bytes a b h)
  else isFalse (fun hh => h (by rw [hh]))

/-! ### Borsh codec

Borsh writes fixed-width integers little-endian, `String` as a `u32` length
prefix followed by the raw bytes, and `Pubkey` as its 32 raw bytes.
`try_from_slice` fails unless the whole input is consumed. -/

def encodeU32 (n : Nat) : Bytes :=
  [byteOf n, byteOf (n / 256), byteOf (n / 65536), byteOf (n / 16777216)]

def encodeU64 (n : Nat) : Bytes :=
  [byteOf n, byteOf (n / 256), byteOf (n / 65536), byteOf (n / 16777216),
   byteOf (n / 4294967296), byteOf (n / 1099511627776),
   byteOf (n / 281474976710656), byteOf (n / 72057594037927936)]

def readU32 : Bytes → Option (Nat × Bytes)
  | b0 :: b1 :: b2 :: b3 :: rest =>
      some (b0.val + 256 * b1.val + 65536 * b2.val + 16777216 * b3.val, rest)
  | _ => none

def readU64 : Bytes → Option (Nat × Bytes)
  | b0 :: b1 :: b2 :: b3 :: b4 :: b5 :: b6 :: b7 :: rest =>
      some (b0.val + 256 * b1.val + 65536 * b2.val + 16777216 * b3.val
        + 4294967296 * b4.val + 1099511627776 * b5.val
        + 281474976710656 * b6.val + 72057594037927936 * b7.val, rest)
  | _ => none

def readBytes (n : Nat) (d : Bytes) : Option (Bytes × Bytes) :=
  if n ≤ d.length then some (d.take n, d.drop n) else none

def readPubkey (d : Bytes) : Option (Pubkey × Bytes) :=
  if h : 32 ≤ d.length then
    some (⟨d.take 32, by rw [List.length_take]; omega⟩, d.drop 32)
  else none

def readString (d : Bytes) : Option (Bytes × Bytes) :=
  match readU32 d with
  | none => none
  | some (len, r) => readBytes len r

/-- `UserAccount { signer: Pubkey, name: String }` from the payment program. -/
structure UserAccount where
  signer : Pubkey
  name : Bytes
deriving DecidableEq

/-- `BalanceAccount { owner: Pubkey, symbol: String, amount: u64 }`. -/
structure BalanceAccount where
  owner : Pubkey
  symbol : Bytes
  amount : Nat
deriving DecidableEq

/-- `ResultAccount { num1: u64, num2: u64, result: u64 }` from the storage program. -/
structure ResultAccount where
  num1 : Nat
  num2 : Nat
  result : Nat
deriving DecidableEq

def encodeUserAccount (u : UserAccount) : Bytes :=
  u.signer.bytes ++ ((encodeU32 u.name.length ++ u.name) ++ [])

def encodeBalanceAccount (b : BalanceAccount) : Bytes :=
  b.owner.bytes ++ ((encodeU32 b.symbol.length ++ b.symbol) ++ encodeU64 b.amount)

def encodeResultAccount (r : ResultAccount) : Bytes :=
  encodeU64 r.num1 ++ (encodeU64 r.num2 ++ encodeU64 r.result)

def tryFromSliceUser (d : Bytes) : Option UserAccount :=
  match readPubkey d with
  | none => none
  | some (k, r1) =>
    match readString r1 with
    | none => none
    | some (nm, r2) => if r2 = [] then some ⟨k, nm⟩ else none

def tryFromSliceBalance (d : Bytes) : Option BalanceAccount :=
  match readPubkey d with
  | none => none
  | some (k, r1) =>
    match readString r1 with
    | none => none
    | some (sym, r2) =>
      match readU64 r2 with
      | none => none
      | some (amt, r3) => if r3 = [] then some ⟨k, sym, amt⟩ else none

def tryFromSliceResult (d : Bytes) : Option ResultAccount :=
  match readU64 d with
  | none => none
  | some (n1, r1) =>
    match readU64 r1 with
    | none => none
    | some (n2, r2) =>
      match readU64 r2 with
      | none => none
      | some (n3, r3) => if r3 = [] then some ⟨n1, n2, n3⟩ else none

/-! ### Codec round-trip and canonicity lemmas -/

theorem readU32_encode (n : Nat) (r : Bytes) :
    readU32 (encodeU32 n ++ r) = some (n % 4294967296, r) := by
  simp only [encodeU32, List.cons_append, List.nil_append, readU32, byteOf,
    Option.some.injEq, Prod.mk.injEq, and_true]
  omega

theorem readU64_encode (n : Nat) (r : Bytes) :
    readU64 (encodeU64 n ++ r) = some (n % 18446744073709551616, r) := by
  simp only [encodeU64, List.cons_append, List.nil_append, readU64, byteOf,
    Option.some.injEq, Prod.mk.injEq, and_true]
  omega

theorem readBytes_encode (xs r : Bytes) :
    readBytes xs.length (xs ++ r) = some (xs, r) := by
  simp [readBytes, List.length_append]

theorem readPubkey_encode (k : Pubkey) (r : Bytes) :
    readPubkey (k.bytes ++ r) = some (k, r) := by
  have hlen : 32 ≤ (k.bytes ++ r).length := by
    rw [List.length_append, k.len32]; omega
  rw [readPubkey, dif_pos hlen]
  have ht : (k.bytes ++ r).take 32 = k.bytes := by
    rw [← k.len32]; exact List.take_left k.bytes r
  have hd : (k.bytes ++ r).drop 32 = r := by
    rw [← k.len32]; exact List.drop_left k.bytes r
  simp only [Option.some.injEq, Prod.mk.injEq]
  exact ⟨Pubkey.eq_of_bytes _ _ ht, hd⟩

theorem readString_encode (xs r : Bytes) (h : xs.length < 4294967296) :
    readString ((encodeU32 xs.length ++ xs) ++ r) = some (xs, r) := by
  rw [readString, List.append_assoc, readU32_encode, Nat.mod_eq_of_lt h]
  exact readBytes_encode xs r

theorem readBytes_encode_nil (xs : Bytes) :
    readBytes xs.length xs = some (xs, []) := by
  have := readBytes_encode xs []
  rwa [List.append_nil] at this

theorem readU64_encode_nil (n : Nat) :
    readU64 (encodeU64 n) = some (n % 18446744073709551616, []) := by
  have := readU64_encode n []
  rwa [List.append_nil] at this

theorem user_roundtrip (u : UserAccount) (h : u.name.length < 4294967296) :
    tryFromSliceUser (encodeUserAccount u) = some u := by
  simp only [tryFromSliceUser, encodeUserAccount, List.append_nil, readPubkey_encode,
    readString, readU32_encode, Nat.mod_eq_of_lt h, readBytes_encode_nil, if_true]

theorem balance_roundtrip (b : BalanceAccount)
    (h1 : b.symbol.length < 4294967296) (h2 : b.amount < 18446744073709551616) :
    tryFromSliceBalance (encodeBalanceAccount b) = some b := by
  simp only [tryFromSliceBalance, encodeBalanceAccount, readPubkey_encode,
    readString, List.append_assoc, readU32_encode, Nat.mod_eq_of_lt h1,
    readBytes_encode, readU64_encode_nil, Nat.mod_eq_of_lt h2, if_true]

theorem result_roundtrip (r : ResultAccount)
    (h1 : r.num1 < 18446744073709551616) (h2 : r.num2 < 18446744073709551616)
    (h3 : r.result < 18446744073709551616) :
    tryFromSliceResult (encodeResultAccount r) = some r := by
  simp only [tryFromSliceResult, encodeResultAccount, readU64_encode,
    Nat.mod_eq_of_lt h1, Nat.mod_eq_of_lt h2, readU64_encode_nil, Nat.mod_eq_of_lt h3, if_true]

theorem readU32_canon (d : Bytes) (p : Nat) (r : Bytes) (h : readU32 d = some (p, r)) :
    d = encodeU32 p ++ r ∧ p < 4294967296 := by
  obtain _ | ⟨b0, _ | ⟨b1, _ | ⟨b2, _ | ⟨b3, rest⟩⟩⟩⟩ := d
  · simp [readU32] at h
  · simp [readU32] at h
  · simp [readU32] at h
  · simp [readU32] at h
  simp only [readU32, Option.some.injEq, Prod.mk.injEq] at h
  obtain ⟨hp, hr⟩ := h
  subst hr
  have h0 := b0.isLt; have h1 := b1.isLt; have h2 := b2.isLt; have h3 := b3.isLt
  subst hp
  refine ⟨?_, by omega⟩
  simp only [encodeU32, byteOf, List.cons_append, List.nil_append, List.cons.injEq,
    and_true]
  refine ⟨?_, ?_, ?_, ?_⟩ <;> (apply Fin.ext; simp; omega)

theorem readU64_canon (d : Bytes) (p : Nat) (r : Bytes) (h : readU64 d = some (p, r)) :
    d = encodeU64 p ++ r ∧ p < 18446744073709551616 := by
  obtain _ | ⟨b0, _ | ⟨b1, _ | ⟨b2, _ | ⟨b3, _ | ⟨b4, _ | ⟨b5, _ | ⟨b6, _ | ⟨b7, rest⟩⟩⟩⟩⟩⟩⟩⟩ := d
  · simp [readU64] at h
  · simp [readU64] at h
  · simp [readU64] at h
  · simp [readU64] at h
  · simp [readU64] at h
  · simp [readU64] at h
  · simp [readU64] at h
  · simp [readU64] at h
  simp only [readU64, Option.some.injEq, Prod.mk.injEq] at h
  obtain ⟨hp, hr⟩ := h
  subst hr
  have h0 := b0.isLt; have h1 := b1.isLt; have h2 := b2.isLt; have h3 := b3.isLt
  have h4 := b4.isLt; have h5 := b5.isLt; have h6 := b6.isLt; have h7 := b7.isLt
  subst hp
  refine ⟨?_, by omega⟩
  simp only [encodeU64, byteOf, List.cons_append, List.nil_append, List.cons.injEq,
    and_true]
  refine ⟨?_, ?_, ?_, ?_, ?_, ?_, ?_, ?_⟩ <;> (apply Fin.ext; simp; omega)

theorem readBytes_canon (n : Nat) (d xs r : Bytes) (h : readBytes n d = some (xs, r)) :
    d = xs ++ r ∧ xs.length = n := by
  rw [readBytes] at h
  split at h
  · simp only [Option.some.injEq, Prod.mk.injEq] at h
    obtain ⟨hx, hr⟩ := h
    subst hx; subst hr
    exact ⟨(List.take_append_drop n d).symm, by rw [List.length_take]; omega⟩
  · cases h

theorem readPubkey_canon (d : Bytes) (k : Pubkey) (r : Bytes)
    (h : readPubkey d = some (k, r)) : d = k.bytes ++ r := by
  rw [readPubkey] at h
  split at h
  · simp only [Option.some.injEq, Prod.mk.injEq] at h
    obtain ⟨hk, hr⟩ := h
    subst hr
    have hb : k.bytes = d.take 32 := by rw [← hk]
    rw [hb]
    exact (List.take_append_drop 32 d).symm
  · cases h

theorem readString_canon (d xs r : Bytes) (h : readString d = some (xs, r)) :
    d = (encodeU32 xs.length ++ xs) ++ r ∧ xs.length < 4294967296 := by
  rw [readString] at h
  cases h32 : readU32 d with
  | none => rw [h32] at h; cases h
  | some pr =>
    obtain ⟨p, r1⟩ := pr
    rw [h32] at h
    obtain ⟨hd, hp⟩ := readU32_canon d p r1 h32
    obtain ⟨hr1, hlen⟩ := readBytes_canon p r1 xs r h
    subst hlen
    rw [hd, hr1, List.append_assoc]
    exact ⟨rfl, hp⟩

theorem balance_canon (d : Bytes) (b : BalanceAccount)
    (h : tryFromSliceBalance d = some b) :
    d = encodeBalanceAccount b ∧ b.symbol.length < 4294967296 ∧
      b.amount < 18446744073709551616 := by
  rw [tryFromSliceBalance] at h
  split at h
  · cases h
  split at h
  · cases h
  split at h
  · cases h
  split at h
  case isFalse => cases h
  rename_i o1 k r1 hpk o2 sym r2 hs o3 amt r3 h64 hr3
  simp only [Option.some.injEq] at h
  subst h; subst hr3
  obtain ⟨hr1, hsl⟩ := readString_canon r1 sym r2 hs
  obtain ⟨hr2, hal⟩ := readU64_canon r2 amt [] h64
  rw [List.append_nil] at hr2
  refine ⟨?_, hsl, hal⟩
  rw [readPubkey_canon d k r1 hpk, hr1, hr2, encodeBalanceAccount,
    List.append_assoc]

theorem user_canon (d : Bytes) (u : UserAccount) (h : tryFromSliceUser d = some u) :
    d = encodeUserAccount u ∧ u.name.length < 4294967296 := by
  rw [tryFromSliceUser] at h
  split at h
  · cases h
  split at h
  · cases h
  split at h
  case isFalse => cases h
  rename_i o1 k r1 hpk o2 nm r2 hs hr2
  simp only [Option.some.injEq] at h
  subst h; subst hr2
  obtain ⟨hr1, hnl⟩ := readString_canon r1 nm [] hs
  rw [List.append_nil] at hr1
  refine ⟨?_, hnl⟩
  rw [readPubkey_canon d k r1 hpk, hr1, encodeUserAccount, List.append_nil]

theorem user_decode_signer (k : Pubkey) (nm : Bytes) (u : UserAccount)
    (h : tryFromSliceUser (encodeUserAccount ⟨k, nm⟩) = some u) : u.signer = k := by
  obtain ⟨hd, _⟩ := user_canon _ u h
  rw [encodeUserAccount, encodeUserAccount] at hd
  have := List.append_inj hd (by rw [u.signer.len32, k.len32])
  exact (Pubkey.eq_of_bytes _ _ this.1).symm

theorem balance_encode_not_user (b : BalanceAccount) :
    tryFromSliceUser (encodeBalanceAccount b) = none := by
  have hle : b.symbol.length % 4294967296 ≤ (b.symbol ++ encodeU64 b.amount).length := by
    rw [List.length_append]
    have := Nat.mod_le b.symbol.length 4294967296
    omega
  have hne : (b.symbol ++ encodeU64 b.amount).drop (b.symbol.length % 4294967296) ≠ [] := by
    intro hnil
    have := List.drop_eq_nil_iff.mp hnil
    rw [List.length_append] at this
    have hm := Nat.mod_le b.symbol.length 4294967296
    have h8 : (encodeU64 b.amount).length = 8 := rfl
    omega
  simp only [tryFromSliceUser, encodeBalanceAccount, readPubkey_encode, readString,
    List.append_assoc, readU32_encode, readBytes, if_pos hle, if_neg hne]

/-! ### Address derivation

`Pubkey::find_program_address` lives in the external `solana_program`
library, not in this repository; only its contract is specified. -/

/-- Modelled from the spec: stand-in for the external SHA-256 based digest
underlying `create_program_address`; a deterministic pure function of the
concatenated length-prefixed seed bytes, producing 32 bytes. -/
def digest32 (data : List Nat) : Bytes :=
  (List.range 32).map (fun i =>
    byteOf (data.foldl (fun acc b => (acc * 31 + b) % 1000003) (i + 1)))

theorem digest32_length (data : List Nat) : (digest32 data).length = 32 := by
  rw [digest32, List.length_map, List.length_range]

/-- Modelled from the spec: `create_program_address` — map the ordered seed
list (namespace tag first, bump last) plus the program namespace to a
storage address. -/
def createProgramAddress (seeds : List Bytes) (programId : Pubkey) : Pubkey :=
  ⟨digest32 ((seeds.map (fun sd => (sd.length : Nat) :: sd.map Fin.val)).flatten
      ++ programId.bytes.map Fin.val),
   digest32_length _⟩

/-- Modelled from the spec: the predicate "this address is not a valid
signing identity under the curve in use". The source's curve check is
external; with the injective digest stand-in every derived address is
treated as off-curve, a substitution the spec explicitly allows. -/
def isOffCurve (k : Pubkey) : Bool := true

/-- Modelled from the spec: bump search from the maximum byte value
downward for the first candidate that is off-curve. -/
def findProgramAddressGo (seeds : List Bytes) (programId : Pubkey) : Nat → Pubkey × Nat
  | 0 => (createProgramAddress (seeds ++ [[0]]) programId, 0)
  | b + 1 =>
    let cand := createProgramAddress (seeds ++ [[byteOf (b + 1)]]) programId
    if isOffCurve cand then (cand, b + 1) else findProgramAddressGo seeds programId b

/-- Modelled from the spec: `Pubkey::find_program_address(seeds, program_id)`. -/
def findProgramAddress (seeds : List Bytes) (programId : Pubkey) : Pubkey × Nat :=
  findProgramAddressGo seeds programId 255

/-! ### Runtime model

Account data lives in a store keyed by address; two `AccountInfo`s with the
same key alias the same data, exactly as on chain. The execution
environment commits a call's writes only when the whole call succeeds, so a
failing operation carries the partial state in its error and the commit
function discards it. -/

abbrev Store := Pubkey → Option Bytes

def emptyStore : Store := fun _ => none

def setAcct (s : Store) (k : Pubkey) (v : Bytes) : Store :=
  fun a => if a = k then some v else s a

def acctData (s : Store) (k : Pubkey) : Bytes := (s k).getD []

/-- `account.data_is_empty()`. -/
def dataIsEmpty (s : Store) (k : Pubkey) : Bool :=
  match s k with
  | none => true
  | some d => d.isEmpty

/-- The `ProgramError` variants the source can return, plus the allocation
collaborator's refusal. -/
inductive ProgramError where
  | invalidInstructionData
  | missingRequiredSignature
  | invalidArgument
  | insufficientFunds
  | borshIoError
  | accountAlreadyInUse
deriving DecidableEq

/-- `u64::checked_add`. -/
def checkedAdd (a b : Nat) : Option Nat :=
  if a + b < 18446744073709551616 then some (a + b) else none

/-- `u64::checked_sub`. -/
def checkedSub (a b : Nat) : Option Nat :=
  if b ≤ a then some (a - b) else none

/-- Modelled from the spec: the external Allocation Collaborator
(`system_instruction::create_account` invoked via `invoke_signed`): it must
fail if the target address already holds data, and otherwise provisions a
zero-initialized record of the requested size at the target address. Rent
funding only moves lamports and is not part of the data store. -/
def createAccount (s : Store) (k : Pubkey) (size : Nat) : Except ProgramError Store :=
  if dataIsEmpty s k then .ok (setAcct s k (List.replicate size 0))
  else .error .accountAlreadyInUse

/-- `record.serialize(&mut &mut account.data.borrow_mut()[..])`: write the
encoding over the prefix of the existing buffer; borsh fails if the buffer
is too short. -/
def serializeInto (s : Store) (k : Pubkey) (enc : Bytes) : Except ProgramError Store :=
  let buf := acctData s k
  if enc.length ≤ buf.length then .ok (setAcct s k (enc ++ buf.drop enc.length))
  else .error .borshIoError

/-- An account as handed to an instruction: its address plus the signer flag. -/
structure AcctMeta where
  key : Pubkey
  isSigner : Bool
deriving DecidableEq

/-- PDA seed `b"user"`. -/
def USER_SEED : Bytes := [117, 115, 101, 114]

/-- PDA seed `b"balance"`. -/
def BALANCE_SEED : Bytes := [98, 97, 108, 97, 110, 99, 101]

/-- A failed call carries the partial state reached before the error; the
environment discards it (see `applyOp`). -/
abbrev TxResult := Except (ProgramError × Store) Store

/-- The `signup` instruction handler. -/
def signup (programId : Pubkey) (signer userAccount : AcctMeta) (name : Bytes)
    (s : Store) : TxResult :=
  if signer.isSigner then
    if (findProgramAddress [USER_SEED, signer.key.bytes] programId).1
        = userAccount.key then
      match createAccount s userAccount.key
          (encodeUserAccount ⟨signer.key, name⟩).length with
      | .error e => .error (e, s)
      | .ok s1 =>
        match serializeInto s1 userAccount.key (encodeUserAccount ⟨signer.key, name⟩) with
        | .error e => .error (e, s1)
        | .ok s2 => .ok s2
    else .error (.invalidArgument, s)
  else .error (.missingRequiredSignature, s)

/-- The `onramp` instruction handler. -/
def onramp (programId : Pubkey) (signer userAccount balanceAccount : AcctMeta)
    (symbol : Bytes) (amount : Nat) (s : Store) : TxResult :=
  if signer.isSigner then
    if (findProgramAddress [USER_SEED, signer.key.bytes] programId).1
        = userAccount.key then
      if (findProgramAddress [BALANCE_SEED, signer.key.bytes, symbol] programId).1
          = balanceAccount.key then
        if dataIsEmpty s balanceAccount.key then
          match createAccount s balanceAccount.key
              (encodeBalanceAccount ⟨signer.key, symbol, amount⟩).length with
          | .error e => .error (e, s)
          | .ok s1 =>
            match serializeInto s1 balanceAccount.key
                (encodeBalanceAccount ⟨signer.key, symbol, amount⟩) with
            | .error e => .error (e, s1)
            | .ok s2 => .ok s2
        else
          match tryFromSliceBalance (acctData s balanceAccount.key) with
          | none => .error (.borshIoError, s)
          | some balanceData =>
            match checkedAdd balanceData.amount amount with
            | none => .error (.invalidArgument, s)
            | some newAmount =>
              match serializeInto s balanceAccount.key
                  (encodeBalanceAccount { balanceData with amount := newAmount }) with
              | .error e => .error (e, s)
              | .ok s1 => .ok s1
      else .error (.invalidArgument, s)
    else .error (.invalidArgument, s)
  else .error (.missingRequiredSignature, s)

/-- The `transfer` instruction handler. -/
def transfer (programId : Pubkey) (signer senderBalance recipientBalance : AcctMeta)
    (symbol : Bytes) (amount : Nat) (recipient : Pubkey) (s : Store) : TxResult :=
  if signer.isSigner then
    if (findProgramAddress [BALANCE_SEED, signer.key.bytes, symbol] programId).1
        = senderBalance.key then
      if (findProgramAddress [BALANCE_SEED, recipient.bytes, symbol] programId).1
          = recipientBalance.key then
        match tryFromSliceBalance (acctData s senderBalance.key) with
        | none => .error (.borshIoError, s)
        | some senderData =>
          if senderData.amount < amount then .error (.insufficientFunds, s)
          else
            match checkedSub senderData.amount amount with
            | none => .error (.invalidArgument, s)
            | some newSenderAmount =>
              match serializeInto s senderBalance.key
                  (encodeBalanceAccount { senderData with amount := newSenderAmount }) with
              | .error e => .error (e, s)
              | .ok s1 =>
                if dataIsEmpty s1 recipientBalance.key then
                  match createAccount s1 recipientBalance.key
                      (encodeBalanceAccount ⟨recipient, symbol, amount⟩).length with
                  | .error e => .error (e, s1)
                  | .ok s2 =>
                    match serializeInto s2 recipientBalance.key
                        (encodeBalanceAccount ⟨recipient, symbol, amount⟩) with
                    | .error e => .error (e, s2)
                    | .ok s3 => .ok s3
                else
                  match tryFromSliceBalance (acctData s1 recipientBalance.key) with
                  | none => .error (.borshIoError, s1)
                  | some recipientData =>
                    match checkedAdd recipientData.amount amount with
                    | none => .error (.invalidArgument, s1)
                    | some newRecipientAmount =>
                      match serializeInto s1 recipientBalance.key
                          (encodeBalanceAccount
                            { recipientData with amount := newRecipientAmount }) with
                      | .error e => .error (e, s1)
                      | .ok s2 => .ok s2
      else .error (.invalidArgument, s)
    else .error (.invalidArgument, s)
  else .error (.missingRequiredSignature, s)

/-- The three dispatched instructions with their positional accounts. -/
inductive Op where
  | signupOp (signer userAccount : AcctMeta) (name : Bytes)
  | onrampOp (signer userAccount balanceAccount : AcctMeta)
      (symbol : Bytes) (amount : Nat)
  | transferOp (signer senderBalance recipientBalance : AcctMeta)
      (symbol : Bytes) (amount : Nat) (recipient : Pubkey)

def runOp (programId : Pubkey) (op : Op) (s : Store) : TxResult :=
  match op with
  | .signupOp sg ua nm => signup programId sg ua nm s
  | .onrampOp sg ua ba sym amt => onramp programId sg ua ba sym amt s
  | .transferOp sg sb rb sym amt rc => transfer programId sg sb rb sym amt rc s

/-- The environment's all-or-nothing commit: a failing call leaves the
store untouched. -/
def applyOp (programId : Pubkey) (op : Op) (s : Store) : Store :=
  match runOp programId op s with
  | .ok s1 => s1
  | .error _ => s

def txOk (r : TxResult) : Bool :=
  match r with
  | .ok _ => true
  | .error _ => false

/-- States reachable from an empty store by any sequence of calls. -/
inductive Reachable (programId : Pubkey) : Store → Prop where
  | init : Reachable programId emptyStore
  | step (op : Op) (s : Store) :
      Reachable programId s → Reachable programId (applyOp programId op s)

def Op.signerMeta : Op → AcctMeta
  | .signupOp sg _ _ => sg
  | .onrampOp sg _ _ _ _ => sg
  | .transferOp sg _ _ _ _ _ => sg

/-- Some supplied target account's address differs from the one re-derived
for it. -/
def opMismatch (programId : Pubkey) : Op → Prop
  | .signupOp sg ua _ =>
      ua.key ≠ (findProgramAddress [USER_SEED, sg.key.bytes] programId).1
  | .onrampOp sg ua ba sym _ =>
      ua.key ≠ (findProgramAddress [USER_SEED, sg.key.bytes] programId).1 ∨
      ba.key ≠ (findProgramAddress [BALANCE_SEED, sg.key.bytes, sym] programId).1
  | .transferOp sg sb rb sym _ rc =>
      sb.key ≠ (findProgramAddress [BALANCE_SEED, sg.key.bytes, sym] programId).1 ∨
      rb.key ≠ (findProgramAddress [BALANCE_SEED, rc.bytes, sym] programId).1

/-! ### Helper lemmas about the runtime model -/

theorem setAcct_self (s : Store) (k : Pubkey) (v : Bytes) : setAcct s k v k = some v := by
  simp [setAcct]

theorem setAcct_other (s : Store) (k a : Pubkey) (v : Bytes) (h : a ≠ k) :
    setAcct s k v a = s a := by
  simp [setAcct, h]

theorem encodeUser_length (u : UserAccount) :
    (encodeUserAccount u).length = u.name.length + 36 := by
  simp [encodeUserAccount, encodeU32, List.length_append, u.signer.len32]
  omega

theorem encodeBalance_length (b : BalanceAccount) :
    (encodeBalanceAccount b).length = b.symbol.length + 44 := by
  simp [encodeBalanceAccount, encodeU32, encodeU64, List.length_append, b.owner.len32]
  omega

theorem isEmpty_false_of_length_pos (d : Bytes) (h : 0 < d.length) :
    d.isEmpty = false := by
  cases d with
  | nil => simp at h
  | cons a as => rfl

theorem createAccount_empty (s : Store) (k : Pubkey) (size : Nat)
    (h : dataIsEmpty s k = true) :
    createAccount s k size = .ok (setAcct s k (List.replicate size 0)) := by
  rw [createAccount, if_pos h]

theorem serializeInto_exact (s : Store) (k : Pubkey) (enc buf : Bytes)
    (hdata : s k = some buf) (hlen : enc.length = buf.length) :
    serializeInto s k enc = .ok (setAcct s k enc) := by
  have hacct : acctData s k = buf := by rw [acctData, hdata]; rfl
  rw [serializeInto]
  simp only [hacct, hlen, le_refl, if_pos]
  rw [List.drop_length, List.append_nil]

theorem drop_replicate_self (n : Nat) (x : Byte) :
    (List.replicate n x).drop n = [] :=
  List.drop_eq_nil_iff.mpr (by simp)

theorem acctData_some (s : Store) (k : Pubkey) (d : Bytes)
    (hd : acctData s k = d) (hne : d ≠ []) : s k = some d := by
  rw [acctData] at hd
  cases hsk : s k with
  | none => rw [hsk] at hd; simp at hd; exact absurd hd.symm (fun hh => hne hh.symm)
  | some v => rw [hsk] at hd; simp at hd; rw [hd]

theorem acctData_of_empty (s : Store) (k : Pubkey) (h : dataIsEmpty s k = true) :
    acctData s k = [] := by
  rw [dataIsEmpty] at h
  rw [acctData]
  cases hsk : s k with
  | none => rfl
  | some d =>
    rw [hsk] at h
    simp only [Option.getD_some]
    exact List.isEmpty_iff.mp h

/-! ### Concrete data used by the witnesses -/

set_option maxRecDepth 100000

def pidW : Pubkey := ⟨List.replicate 32 7, by simp⟩

def keyA : Pubkey := ⟨List.replicate 32 1, by simp⟩

def keyB : Pubkey := ⟨List.replicate 32 2, by simp⟩

def wrongKey : Pubkey := ⟨List.replicate 32 3, by simp⟩

def symUSD : Bytes := [85, 83, 68]

def userKeyA : Pubkey := (findProgramAddress [USER_SEED, keyA.bytes] pidW).1

def userKeyB : Pubkey := (findProgramAddress [USER_SEED, keyB.bytes] pidW).1

def balKeyA : Pubkey := (findProgramAddress [BALANCE_SEED, keyA.bytes, symUSD] pidW).1

def balKeyB : Pubkey := (findProgramAddress [BALANCE_SEED, keyB.bytes, symUSD] pidW).1

def storeA90 : Store := setAcct emptyStore balKeyA (encodeBalanceAccount ⟨keyA, symUSD, 90⟩)

def storeMax : Store :=
  setAcct emptyStore balKeyA (encodeBalanceAccount ⟨keyA, symUSD, 18446744073709551615⟩)

/-! ### The claims -/

/-- Claim C9: the address derivation is deterministic — two invocations of
`find_program_address` with the same namespace tag, ordered seed list and
program namespace yield the same (address, nonce) pair. -/
theorem derive_deterministic (tag : Bytes) (seeds : List Bytes) (programId : Pubkey) :
    findProgramAddress (tag :: seeds) programId
      = findProgramAddress (tag :: seeds) programId := rfl

/-- Claim C6: for every record shape in the repository (identity record,
balance record, composite two-number record) and every valid record value,
decoding the encoding yields the record back. -/
theorem codec_roundtrip (u : UserAccount) (b : BalanceAccount) (r : ResultAccount)
    (hu : u.name.length < 4294967296)
    (hb1 : b.symbol.length < 4294967296) (hb2 : b.amount < 18446744073709551616)
    (hr1 : r.num1 < 18446744073709551616) (hr2 : r.num2 < 18446744073709551616)
    (hr3 : r.result < 18446744073709551616) :
    tryFromSliceUser (encodeUserAccount u) = some u ∧
    tryFromSliceBalance (encodeBalanceAccount b) = some b ∧
    tryFromSliceResult (encodeResultAccount r) = some r :=
  ⟨user_roundtrip u hu, balance_roundtrip b hb1 hb2, result_roundtrip r hr1 hr2 hr3⟩

/-- Witness for C6 at concrete records. -/
theorem codec_roundtrip_witness :
    tryFromSliceUser (encodeUserAccount ⟨keyA, [97]⟩) = some ⟨keyA, [97]⟩ ∧
    tryFromSliceBalance (encodeBalanceAccount ⟨keyB, symUSD, 5⟩)
      = some ⟨keyB, symUSD, 5⟩ ∧
    tryFromSliceResult (encodeResultAccount ⟨1, 2, 3⟩) = some ⟨1, 2, 3⟩ :=
  codec_roundtrip ⟨keyA, [97]⟩ ⟨keyB, symUSD, 5⟩ ⟨1, 2, 3⟩ (by decide) (by decide)
    (by decide) (by decide) (by decide) (by decide)

/-- Claim C2: a credit (onramp) onto an existing balance record whose stored
amount plus the instruction amount exceeds the u64 range fails with the
overflow error (surfaced as `ProgramError::InvalidArgument` from the failed
`checked_add`) and leaves the target record — indeed the whole store —
unchanged; no wraparound or saturation happens. -/
theorem onramp_overflow_rejected (programId : Pubkey) (sg ua ba : AcctMeta)
    (sym : Bytes) (amt : Nat) (s : Store) (b : BalanceAccount)
    (hsig : sg.isSigner = true)
    (hua : (findProgramAddress [USER_SEED, sg.key.bytes] programId).1 = ua.key)
    (hba : (findProgramAddress [BALANCE_SEED, sg.key.bytes, sym] programId).1 = ba.key)
    (hdata : s ba.key = some (encodeBalanceAccount b))
    (hb1 : b.symbol.length < 4294967296) (hb2 : b.amount < 18446744073709551616)
    (hov : 18446744073709551616 ≤ b.amount + amt) :
    onramp programId sg ua ba sym amt s = .error (.invalidArgument, s) ∧
    applyOp programId (.onrampOp sg ua ba sym amt) s = s := by
  have hde : ¬ (dataIsEmpty s ba.key = true) := by
    simp only [dataIsEmpty, hdata]
    rw [isEmpty_false_of_length_pos _ (by rw [encodeBalance_length]; omega)]
    simp
  have hacct : acctData s ba.key = encodeBalanceAccount b := by
    rw [acctData, hdata]; rfl
  have hdec := balance_roundtrip b hb1 hb2
  have hadd : checkedAdd b.amount amt = none := by
    rw [checkedAdd, if_neg]; omega
  have hmain : onramp programId sg ua ba sym amt s = .error (.invalidArgument, s) := by
    rw [onramp, if_pos hsig, if_pos hua, if_pos hba, if_neg hde]
    rw [hacct, hdec]
    simp only [hadd]
  refine ⟨hmain, ?_⟩
  rw [applyOp, runOp, hmain]

/-- Witness for C2: crediting 1 onto a stored amount of u64::MAX fails and
leaves the store unchanged. -/
theorem onramp_overflow_rejected_witness :
    onramp pidW ⟨keyA, true⟩ ⟨userKeyA, false⟩ ⟨balKeyA, false⟩ symUSD 1 storeMax
      = .error (.invalidArgument, storeMax) ∧
    applyOp pidW (.onrampOp ⟨keyA, true⟩ ⟨userKeyA, false⟩ ⟨balKeyA, false⟩ symUSD 1)
      storeMax = storeMax :=
  onramp_overflow_rejected pidW ⟨keyA, true⟩ ⟨userKeyA, false⟩ ⟨balKeyA, false⟩
    symUSD 1 storeMax ⟨keyA, symUSD, 18446744073709551615⟩ rfl rfl rfl (by decide)
    (by decide) (by decide) (by decide)

/-- Claim C1: a transfer whose sender record exists but holds less than the
requested amount fails with `InsufficientFunds`, and both the sender's and
the recipient's records — indeed the whole store — are left exactly as
before the call: the failure happens before any write. -/
theorem transfer_insufficient_funds (programId : Pubkey) (sg sb rb : AcctMeta)
    (sym : Bytes) (amt : Nat) (rc : Pubkey) (s : Store) (senderData : BalanceAccount)
    (hsig : sg.isSigner = true)
    (hsk : (findProgramAddress [BALANCE_SEED, sg.key.bytes, sym] programId).1 = sb.key)
    (hrk : (findProgramAddress [BALANCE_SEED, rc.bytes, sym] programId).1 = rb.key)
    (hdec : tryFromSliceBalance (acctData s sb.key) = some senderData)
    (hlt : senderData.amount < amt) :
    transfer programId sg sb rb sym amt rc s = .error (.insufficientFunds, s) ∧
    applyOp programId (.transferOp sg sb rb sym amt rc) s = s := by
  have hmain : transfer programId sg sb rb sym amt rc s
      = .error (.insufficientFunds, s) := by
    rw [transfer, if_pos hsig, if_pos hsk, if_pos hrk, hdec]
    simp only [if_pos hlt]
  refine ⟨hmain, ?_⟩
  rw [applyOp, runOp, hmain]

/-- Witness for C1: transferring 1000 from a record holding 90 fails and the
store is untouched. -/
theorem transfer_insufficient_funds_witness :
    transfer pidW ⟨keyA, true⟩ ⟨balKeyA, false⟩ ⟨balKeyB, false⟩ symUSD 1000 keyB
        storeA90
      = .error (.insufficientFunds, storeA90) ∧
    applyOp pidW
        (.transferOp ⟨keyA, true⟩ ⟨balKeyA, false⟩ ⟨balKeyB, false⟩ symUSD 1000 keyB)
        storeA90 = storeA90 :=
  transfer_insufficient_funds pidW ⟨keyA, true⟩ ⟨balKeyA, false⟩ ⟨balKeyB, false⟩
    symUSD 1000 keyB storeA90 ⟨keyA, symUSD, 90⟩ rfl rfl rfl (by decide) (by decide)

theorem encodeBalance_ne_nil (b : BalanceAccount) : encodeBalanceAccount b ≠ [] := by
  intro hh
  have := congrArg List.length hh
  rw [encodeBalance_length] at this
  simp at this

theorem tryFromSliceBalance_nil : tryFromSliceBalance [] = none := rfl

/-- Claim C4: for every operation, when any supplied target account's
address differs from the address re-derived from that operation's namespace
tag and seeds, the call fails with `AddressMismatch`
(`ProgramError::InvalidArgument`) before reading or writing any record: the
store is returned untouched. -/
theorem mismatch_rejected (programId : Pubkey) (op : Op) (s : Store)
    (hsig : op.signerMeta.isSigner = true) (hmis : opMismatch programId op) :
    runOp programId op s = .error (.invalidArgument, s) ∧
    applyOp programId op s = s := by
  have hmain : runOp programId op s = .error (.invalidArgument, s) := by
    cases op with
    | signupOp sg ua nm =>
      simp only [Op.signerMeta] at hsig
      simp only [opMismatch] at hmis
      rw [runOp, signup, if_pos hsig, if_neg (fun hh => hmis hh.symm)]
    | onrampOp sg ua ba sym amt =>
      simp only [Op.signerMeta] at hsig
      simp only [opMismatch] at hmis
      rcases hmis with h | h
      · rw [runOp, onramp, if_pos hsig, if_neg (fun hh => h hh.symm)]
      · by_cases hu :
          (findProgramAddress [USER_SEED, sg.key.bytes] programId).1 = ua.key
        · rw [runOp, onramp, if_pos hsig, if_pos hu, if_neg (fun hh => h hh.symm)]
        · rw [runOp, onramp, if_pos hsig, if_neg hu]
    | transferOp sg sb rb sym amt rc =>
      simp only [Op.signerMeta] at hsig
      simp only [opMismatch] at hmis
      rcases hmis with h | h
      · rw [runOp, transfer, if_pos hsig, if_neg (fun hh => h hh.symm)]
      · by_cases hs2 :
          (findProgramAddress [BALANCE_SEED, sg.key.bytes, sym] programId).1 = sb.key
        · rw [runOp, transfer, if_pos hsig, if_pos hs2, if_neg (fun hh => h hh.symm)]
        · rw [runOp, transfer, if_pos hsig, if_neg hs2]
  refine ⟨hmain, ?_⟩
  rw [applyOp, hmain]

/-- Witness for C4: a signup whose supplied user account address is not the
derived PDA is rejected with the store untouched. -/
theorem mismatch_rejected_witness :
    runOp pidW (.signupOp ⟨keyA, true⟩ ⟨wrongKey, false⟩ [97]) emptyStore
      = .error (.invalidArgument, emptyStore) ∧
    applyOp pidW (.signupOp ⟨keyA, true⟩ ⟨wrongKey, false⟩ [97]) emptyStore
      = emptyStore := by
  have h : wrongKey ≠ (findProgramAddress [USER_SEED, keyA.bytes] pidW).1 := by decide
  exact mismatch_rejected pidW (.signupOp ⟨keyA, true⟩ ⟨wrongKey, false⟩ [97])
    emptyStore rfl h

/-- Claim C3 (counterexample): a Credit (onramp) by a signer with no prior
Identity Record, supplying the correctly derived account addresses,
succeeds and creates the balance record, instead of failing with
UnknownIdentity or AddressMismatch. -/
theorem onramp_no_identity_counterexample :
    emptyStore userKeyB = none ∧
    txOk (onramp pidW ⟨keyB, true⟩ ⟨userKeyB, false⟩ ⟨balKeyB, false⟩ symUSD 5
      emptyStore) = true ∧
    applyOp pidW (.onrampOp ⟨keyB, true⟩ ⟨userKeyB, false⟩ ⟨balKeyB, false⟩ symUSD 5)
        emptyStore balKeyB
      = some (encodeBalanceAccount ⟨keyB, symUSD, 5⟩) :=
  ⟨rfl, by decide, by decide⟩

/-- Claim C3 (amended): Credit checks only that the supplied identity-record
address equals the one derived from the signer; it does not require an
identity record to exist. With correctly derived addresses and no prior
RegisterIdentity, the Credit succeeds and creates the balance record. -/
theorem onramp_no_identity_succeeds (programId : Pubkey) (sg ua ba : AcctMeta)
    (sym : Bytes) (amt : Nat) (s : Store)
    (hsig : sg.isSigner = true)
    (hua : (findProgramAddress [USER_SEED, sg.key.bytes] programId).1 = ua.key)
    (hba : (findProgramAddress [BALANCE_SEED, sg.key.bytes, sym] programId).1 = ba.key)
    (hnoid : s ua.key = none)
    (hempty : dataIsEmpty s ba.key = true) :
    txOk (onramp programId sg ua ba sym amt s) = true ∧
    applyOp programId (.onrampOp sg ua ba sym amt) s ba.key
      = some (encodeBalanceAccount ⟨sg.key, sym, amt⟩) := by
  have hca := createAccount_empty s ba.key
    (encodeBalanceAccount ⟨sg.key, sym, amt⟩).length hempty
  have hser : serializeInto
      (setAcct s ba.key
        (List.replicate (encodeBalanceAccount ⟨sg.key, sym, amt⟩).length 0))
      ba.key (encodeBalanceAccount ⟨sg.key, sym, amt⟩)
      = .ok (setAcct
          (setAcct s ba.key
            (List.replicate (encodeBalanceAccount ⟨sg.key, sym, amt⟩).length 0))
          ba.key (encodeBalanceAccount ⟨sg.key, sym, amt⟩)) :=
    serializeInto_exact _ _ _ _ (setAcct_self _ _ _) (by simp)
  have hrun : onramp programId sg ua ba sym amt s
      = .ok (setAcct
          (setAcct s ba.key
            (List.replicate (encodeBalanceAccount ⟨sg.key, sym, amt⟩).length 0))
          ba.key (encodeBalanceAccount ⟨sg.key, sym, amt⟩)) := by
    rw [onramp, if_pos hsig, if_pos hua, if_pos hba, if_pos hempty]
    simp only [hca, hser]
  refine ⟨by simp only [hrun, txOk], ?_⟩
  rw [applyOp, runOp, hrun]
  exact setAcct_self _ _ _

/-- Witness for the amended C3 with a concrete signer that never signed up. -/
theorem onramp_no_identity_succeeds_witness :
    txOk (onramp pidW ⟨keyB, true⟩ ⟨userKeyB, false⟩ ⟨balKeyB, false⟩ symUSD 7
      emptyStore) = true ∧
    applyOp pidW (.onrampOp ⟨keyB, true⟩ ⟨userKeyB, false⟩ ⟨balKeyB, false⟩ symUSD 7)
        emptyStore balKeyB
      = some (encodeBalanceAccount ⟨keyB, symUSD, 7⟩) :=
  onramp_no_identity_succeeds pidW ⟨keyB, true⟩ ⟨userKeyB, false⟩ ⟨balKeyB, false⟩
    symUSD 7 emptyStore rfl rfl rfl rfl rfl

/-- Claim C7: a second RegisterIdentity (signup) for the same signer after a
successful first one fails because the derivation target already holds data
of nonzero length (the allocation collaborator's refuse-to-reallocate
behavior), and the existing identity record is left unchanged. -/
theorem signup_twice_rejected (programId : Pubkey) (sg ua : AcctMeta)
    (name1 name2 : Bytes) (s s1 : Store)
    (h1 : signup programId sg ua name1 s = .ok s1) :
    signup programId sg ua name2 s1 = .error (.accountAlreadyInUse, s1) ∧
    applyOp programId (.signupOp sg ua name2) s1 = s1 := by
  rw [signup] at h1
  split at h1
  case isFalse => cases h1
  rename_i hsig
  split at h1
  case isFalse => cases h1
  rename_i hpda
  split at h1
  · cases h1
  rename_i sA hca
  split at h1
  · cases h1
  rename_i sB hser
  injection h1 with hs1
  rw [serializeInto] at hser
  split at hser
  case isFalse => cases hser
  injection hser with hserEq
  have hkey : s1 ua.key = some (encodeUserAccount ⟨sg.key, name1⟩
      ++ (acctData sA ua.key).drop (encodeUserAccount ⟨sg.key, name1⟩).length) := by
    rw [← hs1, ← hserEq]
    exact setAcct_self _ _ _
  have hde2 : ¬ (dataIsEmpty s1 ua.key = true) := by
    simp only [dataIsEmpty, hkey]
    rw [isEmpty_false_of_length_pos]
    · simp
    · rw [List.length_append, encodeUser_length]; omega
  have hmain : signup programId sg ua name2 s1
      = .error (.accountAlreadyInUse, s1) := by
    rw [signup, if_pos hsig, if_pos hpda, createAccount, if_neg hde2]
  refine ⟨hmain, ?_⟩
  rw [applyOp, runOp, hmain]

/-- Witness for C7: signup for the same signer twice, the second fails and
leaves the store as after the first. -/
theorem signup_twice_rejected_witness :
    signup pidW ⟨keyA, true⟩ ⟨userKeyA, false⟩ [98]
        (applyOp pidW (.signupOp ⟨keyA, true⟩ ⟨userKeyA, false⟩ [97]) emptyStore)
      = .error (.accountAlreadyInUse,
          applyOp pidW (.signupOp ⟨keyA, true⟩ ⟨userKeyA, false⟩ [97]) emptyStore) ∧
    applyOp pidW (.signupOp ⟨keyA, true⟩ ⟨userKeyA, false⟩ [98])
        (applyOp pidW (.signupOp ⟨keyA, true⟩ ⟨userKeyA, false⟩ [97]) emptyStore)
      = applyOp pidW (.signupOp ⟨keyA, true⟩ ⟨userKeyA, false⟩ [97]) emptyStore :=
  signup_twice_rejected pidW ⟨keyA, true⟩ ⟨userKeyA, false⟩ [97] [98] emptyStore
    (applyOp pidW (.signupOp ⟨keyA, true⟩ ⟨userKeyA, false⟩ [97]) emptyStore) rfl

/-- Claim C5: a successful transfer between distinct sender and recipient
records debits the sender by exactly the amount, and either creates the
recipient record holding exactly the transferred amount (if it was absent)
or increments the existing recipient record by exactly the amount. -/
theorem transfer_success_amounts (programId : Pubkey) (sg sb rb : AcctMeta)
    (sym : Bytes) (amt : Nat) (rc : Pubkey) (s sFinal : Store)
    (senderData : BalanceAccount)
    (hne : sb.key ≠ rb.key)
    (hdec : tryFromSliceBalance (acctData s sb.key) = some senderData)
    (htr : transfer programId sg sb rb sym amt rc s = .ok sFinal) :
    sFinal sb.key = some (encodeBalanceAccount
      { senderData with amount := senderData.amount - amt }) ∧
    (dataIsEmpty s rb.key = true →
      sFinal rb.key = some (encodeBalanceAccount ⟨rc, sym, amt⟩)) ∧
    (∀ recipientData, tryFromSliceBalance (acctData s rb.key) = some recipientData →
      sFinal rb.key = some (encodeBalanceAccount
        { recipientData with amount := recipientData.amount + amt })) := by
  rw [transfer] at htr
  split at htr
  case isFalse => cases htr
  split at htr
  case isFalse => cases htr
  split at htr
  case isFalse => cases htr
  split at htr
  · cases htr
  rename_i sd hsd
  rw [hdec] at hsd
  injection hsd with hsd2
  subst hsd2
  split at htr
  case isTrue => cases htr
  rename_i hnlt
  split at htr
  · cases htr
  rename_i n hsub
  rw [checkedSub] at hsub
  split at hsub
  case isFalse => cases hsub
  injection hsub with hn
  subst hn
  split at htr
  · cases htr
  rename_i s1 hser1
  obtain ⟨hbuf, hsl, hal⟩ := balance_canon _ _ hdec
  have hsome : s sb.key = some (encodeBalanceAccount senderData) :=
    acctData_some _ _ _ hbuf (encodeBalance_ne_nil _)
  have hserX := serializeInto_exact s sb.key
    (encodeBalanceAccount { senderData with amount := senderData.amount - amt }) _
    hsome (by rw [encodeBalance_length, encodeBalance_length])
  rw [hserX] at hser1
  injection hser1 with hs1
  have hs1rb : s1 rb.key = s rb.key := by
    rw [← hs1]; exact setAcct_other _ _ _ _ (fun hh => hne hh.symm)
  have hs1sb : s1 sb.key
      = some (encodeBalanceAccount
          { senderData with amount := senderData.amount - amt }) := by
    rw [← hs1]; exact setAcct_self _ _ _
  have hdeq : dataIsEmpty s1 rb.key = dataIsEmpty s rb.key := by
    rw [dataIsEmpty, dataIsEmpty, hs1rb]
  split at htr
  · -- recipient record absent: create it
    rename_i hde1
    split at htr
    · cases htr
    rename_i s2 hca
    split at htr
    · cases htr
    rename_i s3 hser3
    injection htr with hfinal
    rw [createAccount_empty _ _ _ hde1] at hca
    injection hca with hs2
    have hrep : s2 rb.key
        = some (List.replicate (encodeBalanceAccount ⟨rc, sym, amt⟩).length 0) := by
      rw [← hs2]; exact setAcct_self _ _ _
    have hserY := serializeInto_exact s2 rb.key
      (encodeBalanceAccount ⟨rc, sym, amt⟩) _ hrep (by simp)
    rw [hserY] at hser3
    injection hser3 with hs3
    refine ⟨?_, fun _ => ?_, fun rd hrd => ?_⟩
    · rw [← hfinal, ← hs3, setAcct_other _ _ _ _ hne, ← hs2,
        setAcct_other _ _ _ _ hne, hs1sb]
    · rw [← hfinal, ← hs3]; exact setAcct_self _ _ _
    · rw [acctData_of_empty s rb.key (hdeq ▸ hde1), tryFromSliceBalance_nil] at hrd
      cases hrd
  · -- recipient record present: increment it
    rename_i hde1
    split at htr
    · cases htr
    rename_i rd hrd1
    split at htr
    · cases htr
    rename_i m hadd
    split at htr
    · cases htr
    rename_i s2 hser2
    injection htr with hfinal
    have hacc : acctData s1 rb.key = acctData s rb.key := by
      rw [acctData, acctData, hs1rb]
    rw [hacc] at hrd1
    obtain ⟨hbuf2, hsl2, hal2⟩ := balance_canon _ _ hrd1
    have hsome2 : s rb.key = some (encodeBalanceAccount rd) :=
      acctData_some _ _ _ hbuf2 (encodeBalance_ne_nil rd)
    have hsome2a : s1 rb.key = some (encodeBalanceAccount rd) := by
      rw [hs1rb]; exact hsome2
    rw [checkedAdd] at hadd
    split at hadd
    case isFalse => cases hadd
    injection hadd with hm
    subst hm
    have hserY := serializeInto_exact s1 rb.key
      (encodeBalanceAccount { rd with amount := rd.amount + amt }) _ hsome2a
      (by rw [encodeBalance_length, encodeBalance_length])
    rw [hserY] at hser2
    injection hser2 with hs2
    refine ⟨?_, fun hemp => ?_, fun rd2 hrd2 => ?_⟩
    · rw [← hfinal, ← hs2, setAcct_other _ _ _ _ hne, hs1sb]
    · exact absurd (hdeq ▸ hemp) hde1
    · rw [hrd1] at hrd2
      injection hrd2 with h2
      subst h2
      rw [← hfinal, ← hs2]
      exact setAcct_self _ _ _

def opC5 : Op :=
  .transferOp ⟨keyA, true⟩ ⟨balKeyA, false⟩ ⟨balKeyB, false⟩ symUSD 40 keyB

def storeC5 : Store := applyOp pidW opC5 storeA90

/-- Witness for C5: transferring 40 out of 90 to an absent recipient leaves
the sender at 50 and creates the recipient at 40. -/
theorem transfer_success_amounts_witness :
    storeC5 balKeyA = some (encodeBalanceAccount ⟨keyA, symUSD, 50⟩) ∧
    storeC5 balKeyB = some (encodeBalanceAccount ⟨keyB, symUSD, 40⟩) := by
  have h := transfer_success_amounts pidW ⟨keyA, true⟩ ⟨balKeyA, false⟩
    ⟨balKeyB, false⟩ symUSD 40 keyB storeA90 storeC5 ⟨keyA, symUSD, 90⟩
    (by decide) (by decide) rfl
  exact ⟨h.1, h.2.1 (by decide)⟩

/-- Claim C10: a transfer whose recipient identity equals the signer (so the
sender and recipient balance records are the same record) with sufficient
funds succeeds and leaves the record's stored amount unchanged: the debit is
written first, then the credit re-reads the already-debited value and adds
the amount back. -/
theorem transfer_self_unchanged (programId : Pubkey) (sg sb rb : AcctMeta)
    (sym : Bytes) (amt : Nat) (s : Store) (senderData : BalanceAccount)
    (hsig : sg.isSigner = true)
    (hsk : (findProgramAddress [BALANCE_SEED, sg.key.bytes, sym] programId).1 = sb.key)
    (hrb : rb.key = sb.key)
    (hdec : tryFromSliceBalance (acctData s sb.key) = some senderData)
    (hle : amt ≤ senderData.amount) :
    txOk (transfer programId sg sb rb sym amt sg.key s) = true ∧
    tryFromSliceBalance (acctData
        (applyOp programId (.transferOp sg sb rb sym amt sg.key) s) sb.key)
      = some senderData := by
  obtain ⟨hbuf, hsl, hal⟩ := balance_canon _ _ hdec
  have hsome : s sb.key = some (encodeBalanceAccount senderData) :=
    acctData_some _ _ _ hbuf (encodeBalance_ne_nil _)
  have hnlt : ¬ (senderData.amount < amt) := not_lt.mpr hle
  have hsub : checkedSub senderData.amount amt = some (senderData.amount - amt) := by
    rw [checkedSub, if_pos hle]
  have hser1 : serializeInto s sb.key
      (encodeBalanceAccount { senderData with amount := senderData.amount - amt })
      = .ok (setAcct s sb.key
          (encodeBalanceAccount
            { senderData with amount := senderData.amount - amt })) :=
    serializeInto_exact _ _ _ _ hsome
      (by rw [encodeBalance_length, encodeBalance_length])
  have hde1 : ¬ (dataIsEmpty
      (setAcct s sb.key
        (encodeBalanceAccount { senderData with amount := senderData.amount - amt }))
      sb.key = true) := by
    simp only [dataIsEmpty, setAcct_self]
    rw [isEmpty_false_of_length_pos _ (by rw [encodeBalance_length]; omega)]
    simp
  have hacc1 : acctData
      (setAcct s sb.key
        (encodeBalanceAccount { senderData with amount := senderData.amount - amt }))
      sb.key
      = encodeBalanceAccount { senderData with amount := senderData.amount - amt } := by
    rw [acctData, setAcct_self]
    rfl
  have hdec1 : tryFromSliceBalance
      (encodeBalanceAccount { senderData with amount := senderData.amount - amt })
      = some { senderData with amount := senderData.amount - amt } :=
    balance_roundtrip _ hsl
      (by show senderData.amount - amt < 18446744073709551616; omega)
  have hadd1 : checkedAdd (senderData.amount - amt) amt = some senderData.amount := by
    rw [checkedAdd, Nat.sub_add_cancel hle, if_pos hal]
  have hser2 : serializeInto
      (setAcct s sb.key
        (encodeBalanceAccount { senderData with amount := senderData.amount - amt }))
      sb.key (encodeBalanceAccount senderData)
      = .ok (setAcct
          (setAcct s sb.key
            (encodeBalanceAccount
              { senderData with amount := senderData.amount - amt }))
          sb.key (encodeBalanceAccount senderData)) :=
    serializeInto_exact _ _ _ _ (setAcct_self _ _ _)
      (by rw [encodeBalance_length, encodeBalance_length])
  have hrun : transfer programId sg sb rb sym amt sg.key s
      = .ok (setAcct
          (setAcct s sb.key
            (encodeBalanceAccount
              { senderData with amount := senderData.amount - amt }))
          sb.key (encodeBalanceAccount senderData)) := by
    rw [transfer, hrb, if_pos hsig, if_pos hsk, if_pos hsk, hdec]
    simp only [if_neg hnlt, hsub, hser1, if_neg hde1, hacc1, hdec1, hadd1, hser2]
  refine ⟨by simp only [hrun, txOk], ?_⟩
  rw [applyOp, runOp, hrun]
  show tryFromSliceBalance (acctData
      (setAcct
        (setAcct s sb.key
          (encodeBalanceAccount { senderData with amount := senderData.amount - amt }))
        sb.key (encodeBalanceAccount senderData)) sb.key)
    = some senderData
  rw [acctData, setAcct_self]
  exact balance_roundtrip senderData hsl hal

/-- Witness for C10: a self-transfer of 30 out of 90 succeeds and the stored
record still decodes to amount 90. -/
theorem transfer_self_unchanged_witness :
    txOk (transfer pidW ⟨keyA, true⟩ ⟨balKeyA, false⟩ ⟨balKeyA, false⟩ symUSD 30 keyA
      storeA90) = true ∧
    tryFromSliceBalance (acctData
        (applyOp pidW
          (.transferOp ⟨keyA, true⟩ ⟨balKeyA, false⟩ ⟨balKeyA, false⟩ symUSD 30 keyA)
          storeA90) balKeyA)
      = some ⟨keyA, symUSD, 90⟩ :=
  transfer_self_unchanged pidW ⟨keyA, true⟩ ⟨balKeyA, false⟩ ⟨balKeyA, false⟩ symUSD
    30 storeA90 ⟨keyA, symUSD, 90⟩ rfl rfl rfl (by decide) (by decide)

/-! ### The identity-record invariant (C8) -/

theorem signup_writes (programId : Pubkey) (sg ua : AcctMeta) (nm : Bytes)
    (s : Store) (a : Pubkey) :
    applyOp programId (.signupOp sg ua nm) s a = s a ∨
    (a = (findProgramAddress [USER_SEED, sg.key.bytes] programId).1 ∧
      applyOp programId (.signupOp sg ua nm) s a
        = some (encodeUserAccount ⟨sg.key, nm⟩)) := by
  rw [applyOp, runOp]
  cases hr : signup programId sg ua nm s with
  | error e => simp only [hr]; left; trivial
  | ok s2 =>
    simp only [hr]
    rw [signup] at hr
    split at hr
    case isFalse => cases hr
    rename_i hsig
    split at hr
    case isFalse => cases hr
    rename_i hpda
    split at hr
    · cases hr
    rename_i sA hca
    split at hr
    · cases hr
    rename_i sB hser
    injection hr with hr2
    rw [createAccount] at hca
    by_cases hde : dataIsEmpty s ua.key = true
    case neg => rw [if_neg hde] at hca; cases hca
    rw [if_pos hde] at hca
    injection hca with hcb
    have hrep : sA ua.key
        = some (List.replicate (encodeUserAccount ⟨sg.key, nm⟩).length 0) := by
      rw [← hcb]; exact setAcct_self _ _ _
    have hser2 := serializeInto_exact sA ua.key (encodeUserAccount ⟨sg.key, nm⟩) _
      hrep (by simp)
    rw [hser2] at hser
    injection hser with hsb
    by_cases ha : a = ua.key
    · right
      refine ⟨by rw [ha, ← hpda], ?_⟩
      rw [← hr2, ← hsb, ha]
      exact setAcct_self _ _ _
    · left
      rw [← hr2, ← hsb, setAcct_other _ _ _ _ ha, ← hcb, setAcct_other _ _ _ _ ha]

theorem onramp_writes (programId : Pubkey) (sg ua ba : AcctMeta) (sym : Bytes)
    (amt : Nat) (s : Store) (a : Pubkey) :
    applyOp programId (.onrampOp sg ua ba sym amt) s a = s a ∨
    (∃ b2, applyOp programId (.onrampOp sg ua ba sym amt) s a
      = some (encodeBalanceAccount b2)) := by
  rw [applyOp, runOp]
  cases hr : onramp programId sg ua ba sym amt s with
  | error e => simp only [hr]; left; trivial
  | ok s2 =>
    simp only [hr]
    rw [onramp] at hr
    split at hr
    case isFalse => cases hr
    split at hr
    case isFalse => cases hr
    split at hr
    case isFalse => cases hr
    split at hr
    · -- create path
      rename_i hde
      split at hr
      · cases hr
      rename_i sA hca
      split at hr
      · cases hr
      rename_i sB hser
      injection hr with hr2
      rw [createAccount_empty _ _ _ hde] at hca
      injection hca with hcb
      have hrep : sA ba.key
          = some (List.replicate (encodeBalanceAccount ⟨sg.key, sym, amt⟩).length 0) := by
        rw [← hcb]; exact setAcct_self _ _ _
      have hserX := serializeInto_exact sA ba.key
        (encodeBalanceAccount ⟨sg.key, sym, amt⟩) _ hrep (by simp)
      rw [hserX] at hser
      injection hser with hsb
      by_cases ha : a = ba.key
      · right
        exact ⟨⟨sg.key, sym, amt⟩, by rw [← hr2, ← hsb, ha]; exact setAcct_self _ _ _⟩
      · left
        rw [← hr2, ← hsb, setAcct_other _ _ _ _ ha, ← hcb, setAcct_other _ _ _ _ ha]
    · -- update path
      split at hr
      · cases hr
      rename_i bd hbd
      split at hr
      · cases hr
      rename_i m hadd
      split at hr
      · cases hr
      rename_i sA hser
      injection hr with hr2
      obtain ⟨hbuf, hsl, hal⟩ := balance_canon _ _ hbd
      have hsome : s ba.key = some (encodeBalanceAccount bd) :=
        acctData_some _ _ _ hbuf (encodeBalance_ne_nil _)
      have hserX := serializeInto_exact s ba.key
        (encodeBalanceAccount { bd with amount := m }) _ hsome
        (by rw [encodeBalance_length, encodeBalance_length])
      rw [hserX] at hser
      injection hser with hsb
      by_cases ha : a = ba.key
      · right
        exact ⟨{ bd with amount := m },
          by rw [← hr2, ← hsb, ha]; exact setAcct_self _ _ _⟩
      · left
        rw [← hr2, ← hsb, setAcct_other _ _ _ _ ha]

theorem transfer_writes (programId : Pubkey) (sg sb rb : AcctMeta) (sym : Bytes)
    (amt : Nat) (rc : Pubkey) (s : Store) (a : Pubkey) :
    applyOp programId (.transferOp sg sb rb sym amt rc) s a = s a ∨
    (∃ b2, applyOp programId (.transferOp sg sb rb sym amt rc) s a
      = some (encodeBalanceAccount b2)) := by
  rw [applyOp, runOp]
  cases hr : transfer programId sg sb rb sym amt rc s with
  | error e => simp only [hr]; left; trivial
  | ok s2 =>
    simp only [hr]
    rw [transfer] at hr
    split at hr
    case isFalse => cases hr
    split at hr
    case isFalse => cases hr
    split at hr
    case isFalse => cases hr
    split at hr
    · cases hr
    rename_i sd hsd
    split at hr
    case isTrue => cases hr
    split at hr
    · cases hr
    rename_i n hsubN
    split at hr
    · cases hr
    rename_i s1 hser1
    obtain ⟨hbuf, hsl, hal⟩ := balance_canon _ _ hsd
    have hsome : s sb.key = some (encodeBalanceAccount sd) :=
      acctData_some _ _ _ hbuf (encodeBalance_ne_nil _)
    have hserX := serializeInto_exact s sb.key
      (encodeBalanceAccount { sd with amount := n }) _ hsome
      (by rw [encodeBalance_length, encodeBalance_length])
    rw [hserX] at hser1
    injection hser1 with hs1
    split at hr
    · -- create path
      rename_i hde
      split at hr
      · cases hr
      rename_i sA hca
      split at hr
      · cases hr
      rename_i sB hserB
      injection hr with hr2
      rw [createAccount_empty _ _ _ hde] at hca
      injection hca with hcb
      have hrep : sA rb.key
          = some (List.replicate (encodeBalanceAccount ⟨rc, sym, amt⟩).length 0) := by
        rw [← hcb]; exact setAcct_self _ _ _
      have hserY := serializeInto_exact sA rb.key
        (encodeBalanceAccount ⟨rc, sym, amt⟩) _ hrep (by simp)
      rw [hserY] at hserB
      injection hserB with hsb
      by_cases ha1 : a = rb.key
      · right
        exact ⟨⟨rc, sym, amt⟩, by rw [← hr2, ← hsb, ha1]; exact setAcct_self _ _ _⟩
      by_cases ha2 : a = sb.key
      · right
        refine ⟨{ sd with amount := n }, ?_⟩
        rw [← hr2, ← hsb, setAcct_other _ _ _ _ ha1, ← hcb,
          setAcct_other _ _ _ _ ha1, ← hs1, ha2]
        exact setAcct_self _ _ _
      · left
        rw [← hr2, ← hsb, setAcct_other _ _ _ _ ha1, ← hcb,
          setAcct_other _ _ _ _ ha1, ← hs1, setAcct_other _ _ _ _ ha2]
    · -- update path
      split at hr
      · cases hr
      rename_i rd hrd
      split at hr
      · cases hr
      rename_i m hadd
      split at hr
      · cases hr
      rename_i sB hserB
      injection hr with hr2
      obtain ⟨hbuf2, hsl2, hal2⟩ := balance_canon _ _ hrd
      have hsome2 : s1 rb.key = some (encodeBalanceAccount rd) :=
        acctData_some _ _ _ hbuf2 (encodeBalance_ne_nil _)
      have hserY := serializeInto_exact s1 rb.key
        (encodeBalanceAccount { rd with amount := m }) _ hsome2
        (by rw [encodeBalance_length, encodeBalance_length])
      rw [hserY] at hserB
      injection hserB with hsb
      by_cases ha1 : a = rb.key
      · right
        exact ⟨{ rd with amount := m },
          by rw [← hr2, ← hsb, ha1]; exact setAcct_self _ _ _⟩
      by_cases ha2 : a = sb.key
      · right
        refine ⟨{ sd with amount := n }, ?_⟩
        rw [← hr2, ← hsb, setAcct_other _ _ _ _ ha1, ← hs1, ha2]
        exact setAcct_self _ _ _
      · left
        rw [← hr2, ← hsb, setAcct_other _ _ _ _ ha1, ← hs1,
          setAcct_other _ _ _ _ ha2]

/-- Claim C8: in every reachable state, every account whose bytes decode as
an identity record is stored at the address derived from the "user"
namespace tag and the stored signingIdentity — the stored signingIdentity
always equals the identity whose bytes derived the record's address.
Creation (signup) establishes it, and no instruction writes identity-record
bytes anywhere else. -/
theorem identity_record_invariant (programId : Pubkey) (s : Store)
    (hreach : Reachable programId s) :
    ∀ a d u, s a = some d → tryFromSliceUser d = some u →
      a = (findProgramAddress [USER_SEED, u.signer.bytes] programId).1 := by
  induction hreach with
  | init =>
    intro a d u hd hu
    simp [emptyStore] at hd
  | step op sPrev hprev ih =>
    intro a d u hd hu
    cases op with
    | signupOp sg ua nm =>
      rcases signup_writes programId sg ua nm sPrev a with hsame | ⟨ha, hval⟩
      · exact ih a d u (hsame ▸ hd) hu
      · rw [hval] at hd
        injection hd with hd2
        subst hd2
        rw [ha, user_decode_signer sg.key nm u hu]
    | onrampOp sg ua ba sym amt =>
      rcases onramp_writes programId sg ua ba sym amt sPrev a with hsame | ⟨b2, hval⟩
      · exact ih a d u (hsame ▸ hd) hu
      · rw [hval] at hd
        injection hd with hd2
        subst hd2
        rw [balance_encode_not_user] at hu
        cases hu
    | transferOp sg sb rb sym amt rc =>
      rcases transfer_writes programId sg sb rb sym amt rc sPrev a
        with hsame | ⟨b2, hval⟩
      · exact ih a d u (hsame ▸ hd) hu
      · rw [hval] at hd
        injection hd with hd2
        subst hd2
        rw [balance_encode_not_user] at hu
        cases hu

def opC8 : Op := .signupOp ⟨keyA, true⟩ ⟨userKeyA, false⟩ [97]

def storeC8 : Store := applyOp pidW opC8 emptyStore

/-- Witness for C8 on the state reached by one concrete signup. -/
theorem identity_record_invariant_witness :
    userKeyA = (findProgramAddress [USER_SEED, keyA.bytes] pidW).1 :=
  identity_record_invariant pidW storeC8
    (Reachable.step opC8 emptyStore Reachable.init)
    userKeyA (encodeUserAccount ⟨keyA, [97]⟩) ⟨keyA, [97]⟩ (by decide) (by decide)
